import Mathlib

/-!
Shallow embedding of the `sleeng` command-line Solana wallet (Go), covering
the key store in `pkg/wallet/wallet_key.go` and the transaction-history
decoder/aggregator in `pkg/wallet/wallet_trns.go`.

Go strings are modelled as `List Char`, byte slices as `List Nat` with the
convention that every entry is `< 256`, and Go's machine `int` as `Int` with
explicit reduction modulo `2^8` where the source converts to `byte`.
Fallible Go functions returning `(T, error)` are modelled as `Except`;
Go runtime panics (out-of-range indexing) are a distinct outcome.
-/

set_option autoImplicit false

namespace Sleeng

/-! ## Decimal digits and `strconv` (used by the key codec) -/

/-- The decimal digit character for `n < 10`, i.e. `'0' + n` as Go produces. -/
def digitChar (n : Nat) : Char := Char.ofNat (48 + n)

/-- Fuel-driven decimal rendering of a natural number, most significant digit
first; with fuel `> log10 n` this is exactly Go's `strconv.Itoa` on
non-negative input. -/
def natToDecAux : Nat → Nat → List Char
  | 0, _ => []
  | fuel + 1, n =>
    if n < 10 then [digitChar n]
    else natToDecAux fuel (n / 10) ++ [digitChar (n % 10)]

/-- `strconv.Itoa n` for a non-negative `n` (the only case the key encoder
uses: byte values `0..255`). -/
def natToDec (n : Nat) : List Char := natToDecAux (n + 1) n

/-- `c` is an ASCII decimal digit (`'0' <= c && c <= '9'` in Go). -/
def isDigit (c : Char) : Bool := 48 ≤ c.toNat && c.toNat ≤ 57

/-- Numeric value of an ASCII digit character. -/
def digitVal (c : Char) : Nat := c.toNat - 48

/-- Accumulating decimal parser: the digit loop inside Go's
`strconv.ParseUint`, failing on any non-digit character. -/
def parseDigitsAux : List Char → Nat → Option Nat
  | [], acc => some acc
  | c :: cs, acc =>
    if isDigit c then parseDigitsAux cs (acc * 10 + digitVal c) else none

/-- Parse a non-empty all-digit string to a natural number; `none` on the
empty string or on any non-digit character. -/
def parseDigits : List Char → Option Nat
  | [] => none
  | s => parseDigitsAux s 0

/-- `math.MaxInt64`, the bound `strconv.Atoi` enforces on 64-bit platforms. -/
def int64Max : Nat := 9223372036854775807

/-- `strconv.Atoi`: optional single sign, then decimal digits, range-checked
against the 64-bit `int` type; any violation is an error (`none`). -/
def atoi (s : List Char) : Option Int :=
  match s with
  | [] => none
  | c :: rest =>
    if c = '-' then
      (parseDigits rest).bind fun n =>
        if n ≤ int64Max + 1 then some (-(n : Int)) else none
    else if c = '+' then
      (parseDigits rest).bind fun n =>
        if n ≤ int64Max then some ((n : Int)) else none
    else
      (parseDigits (c :: rest)).bind fun n =>
        if n ≤ int64Max then some ((n : Int)) else none

/-- Go's `byte(num)` conversion on an `int`: the low 8 bits, i.e. reduction
modulo 256 (Euclidean, so negative inputs wrap around). -/
def intToByte (i : Int) : Nat := (i % (256 : Int)).toNat

/-! ## `strings` helpers used by the key codec -/

/-- `strings.TrimPrefix s pre`. -/
def goTrimPre (s pre : List Char) : List Char :=
  if pre.isPrefixOf s then s.drop pre.length else s

/-- `strings.TrimSuffix s suf`. -/
def goTrimSuf (s suf : List Char) : List Char :=
  if suf.isSuffixOf s then s.take (s.length - suf.length) else s

/-! ## The Solana-CLI-compatible key codec (`wallet_key.go:219-258`) -/

/-- Error values produced by the key-store operations; Go's distinct error
values (`ErrActiveWalletNotFound`, `fmt.Errorf` messages) are modelled as
distinct constructors. -/
inductive KeyErr where
  /-- file read / JSON unmarshal failure in `readWalletData` -/
  | readError
  /-- `ErrActiveWalletNotFound` -/
  | activeWalletNotFound
  /-- `fmt.Errorf("no wallet found for alias: %s", alias)` -/
  | walletNotFoundForAlias (a : List Char)
  /-- `fmt.Errorf("alias already exists: %s", alias)` -/
  | aliasExists (a : List Char)
  /-- `strconv.Atoi` failure inside `getPrivateKeyFromSolCLICompStr` -/
  | atoiError
  deriving DecidableEq, Repr

/-- `getSolCLIComptKey`: render each key byte in decimal, join with commas,
wrap in square brackets. -/
def getSolCLIComptKey (key : List Nat) : List Char :=
  '[' :: (List.intercalate [','] (key.map natToDec) ++ [']'])

/-- The `for`-loop of `getPrivateKeyFromSolCLICompStr`: `strconv.Atoi` each
piece (first failure aborts), then truncate to a byte. -/
def parseByteList : List (List Char) → Except KeyErr (List Nat)
  | [] => Except.ok []
  | s :: rest =>
    match atoi s with
    | none => Except.error KeyErr.atoiError
    | some num =>
      match parseByteList rest with
      | Except.error e => Except.error e
      | Except.ok bs => Except.ok (intToByte num :: bs)

/-- `getPrivateKeyFromSolCLICompStr`: trim one `[` prefix and one `]` suffix,
split on commas, `Atoi` each piece into a byte. -/
def getPrivateKeyFromSolCLICompStr (strKey : List Char) : Except KeyErr (List Nat) :=
  let s1 := goTrimPre strKey ['[']
  let s2 := goTrimSuf s1 [']']
  let strArr := s2.splitOn ','
  parseByteList strArr

/-! ## base58 (`mr-tron/base58`, Bitcoin alphabet), used by
`GetCurrentPrivateKey` and `solana.PublicKey.String()` -/

/-- The Bitcoin base58 alphabet used by `mr-tron/base58`. -/
def b58Alphabet : List Char :=
  "123456789ABCDEFGHJKLMNPQRSTUVWXYZabcdefghijkmnopqrstuvwxyz".toList

/-- Fuel-driven base58 digit rendering of a natural number, most significant
digit first; `n = 0` renders as the empty string. -/
def natToB58Aux : Nat → Nat → List Char
  | 0, _ => []
  | fuel + 1, n =>
    if n = 0 then []
    else natToB58Aux fuel (n / 58) ++ [b58Alphabet.getD (n % 58) '1']

/-- Base58 digits of `n` (empty for `0`). -/
def natToB58 (n : Nat) : List Char := natToB58Aux (n + 1) n

/-- Big-endian interpretation of a byte sequence as a natural number. -/
def bytesToNat (bs : List Nat) : Nat := bs.foldl (fun a b => a * 256 + b) 0

/-- Number of leading zero bytes (each becomes a `'1'` in base58). -/
def countLeadZeros : List Nat → Nat
  | 0 :: rest => countLeadZeros rest + 1
  | _ => 0

/-- `base58.Encode`: one `'1'` per leading zero byte, then the base58 digits
of the remaining big-endian value. -/
def base58Encode (bs : List Nat) : List Char :=
  List.replicate (countLeadZeros bs) '1' ++ natToB58 (bytesToNat bs)

/-! ## Wallet store data model (`wallet.go:30-39`) and file state -/

/-- A stored wallet record (`wallet.Wallet`); the decimal balance is modelled
as an integer in the smallest representable unit (only the zero literal
`decimal.Zero` is ever written by the code under verification). -/
structure Wallet where
  privateKey : List Char
  balance : Int
  publicKey : List Char
  deriving DecidableEq, Repr

/-- `wallet.WalletData`; the Go `map[string]Wallet` is modelled as an
association list with unordered-map lookup/insert semantics. -/
structure WalletData where
  activeAlias : List Char
  wallets : List (List Char × Wallet)
  deriving DecidableEq, Repr

/-- Go map read `m[k]` (with the `, ok` form). -/
def goMapGet (m : List (List Char × Wallet)) (k : List Char) : Option Wallet :=
  match m with
  | [] => none
  | (k2, v) :: rest => if k2 = k then some v else goMapGet rest k

/-- Go map write `m[k] = v` (replace an existing binding or add one). -/
def goMapPut (m : List (List Char × Wallet)) (k : List Char) (v : Wallet) :
    List (List Char × Wallet) :=
  match m with
  | [] => [(k, v)]
  | (k2, v2) :: rest =>
    if k2 = k then (k, v) :: rest else (k2, v2) :: goMapPut rest k v

/-- State of the backing key file `standard.solana-keygen.json`: absent, or
present with (well-formed JSON) contents `d`. Reads and writes of the store
go through JSON (de)serialization, which is assumed faithful, so file
contents are identified with the parsed `WalletData`. -/
inductive FS where
  | absent
  | present (data : WalletData)
  deriving DecidableEq, Repr

/-- The wallets recorded in a file state (none when the file is absent). -/
def fsWallets : FS → List (List Char × Wallet)
  | FS.absent => []
  | FS.present d => d.wallets

/-- `readWalletData`: read the file and unmarshal; a missing (or unreadable)
file is an error. -/
def readWalletData : FS → Except KeyErr WalletData
  | FS.absent => Except.error KeyErr.readError
  | FS.present d => Except.ok d

/-- `IsKeyFilePresent`: in this model the only read failure is
`os.ErrNotExist`, reported as `ok false`. -/
def isKeyFilePresent : FS → Bool
  | FS.absent => false
  | FS.present _ => true

/-! ## Key-store operations (`wallet_key.go`) -/

/-- `GetCurrentPrivateKey`: read the store, look up the active wallet,
decode its CLI-compatible key text, return the base58 encoding of the raw
key bytes. -/
def getCurrentPrivateKey (fs : FS) : Except KeyErr (List Char) :=
  match readWalletData fs with
  | Except.error e => Except.error e
  | Except.ok data =>
    match goMapGet data.wallets data.activeAlias with
    | none => Except.error KeyErr.activeWalletNotFound
    | some activeWallet =>
      match getPrivateKeyFromSolCLICompStr activeWallet.privateKey with
      | Except.error e => Except.error e
      | Except.ok ret => Except.ok (base58Encode ret)

/-- `GetPrivateKeyByAlias`: return the stored `privateKey` field verbatim. -/
def getPrivateKeyByAlias (fs : FS) (alias2 : List Char) : Except KeyErr (List Char) :=
  match readWalletData fs with
  | Except.error e => Except.error e
  | Except.ok data =>
    match goMapGet data.wallets alias2 with
    | none => Except.error (KeyErr.walletNotFoundForAlias alias2)
    | some w => Except.ok w.privateKey

/-- `GetCurrentPublicKey`. -/
def getCurrentPublicKey (fs : FS) : Except KeyErr (List Char) :=
  match readWalletData fs with
  | Except.error e => Except.error e
  | Except.ok data =>
    match goMapGet data.wallets data.activeAlias with
    | none => Except.error KeyErr.activeWalletNotFound
    | some activeWallet => Except.ok activeWallet.publicKey

/-- `WriteKeyToFile`: load the existing store (or start empty), reject a
duplicate alias before any write, otherwise add the wallet with the
CLI-compatible key text and zero balance, make it active, and write the new
serialization. Returns the Go result together with the resulting file
state (unchanged on every error path). -/
def writeKeyToFile (fs : FS) (alias2 : List Char) (key : List Nat)
    (walletAddress : List Char) : Except KeyErr Unit × FS :=
  let data : WalletData :=
    match fs with
    | FS.present d => d
    | FS.absent => { activeAlias := [], wallets := [] }
  match goMapGet data.wallets alias2 with
  | some _ => (Except.error (KeyErr.aliasExists alias2), fs)
  | none =>
    let solanaCliCompatiblekey := getSolCLIComptKey key
    let newWallet : Wallet :=
      { privateKey := solanaCliCompatiblekey, balance := 0, publicKey := walletAddress }
    let newData : WalletData :=
      { activeAlias := alias2, wallets := goMapPut data.wallets alias2 newWallet }
    (Except.ok (), FS.present newData)

/-! ## Transaction decoding (`wallet_trns.go:17-68`) -/

/-- A Solana public key: 32 raw bytes. -/
abbrev PubKey := List Nat

/-- `solana.CompiledInstruction` (the fields `decodeSystemTransfer` reads). -/
structure CompiledInstruction where
  programIDIndex : Nat
  accounts : List Nat
  data : List Nat
  deriving DecidableEq, Repr

/-- `solana.Message` (the fields `decodeSystemTransfer` reads). -/
structure Message where
  accountKeys : List PubKey
  instructions : List CompiledInstruction
  deriving DecidableEq, Repr

/-- `solana.Transaction` (the fields `decodeSystemTransfer` reads). -/
structure SolTransaction where
  message : Message
  deriving DecidableEq, Repr

/-- `wallet.Transaction`, one decoded transfer event. -/
structure Transaction where
  Amount : Nat
  From : PubKey
  To : PubKey
  Timestamp : Int
  IsSender : Bool
  deriving DecidableEq, Repr

/-- Errors surfaced by `decodeSystemTransfer`. -/
inductive DecErr where
  /-- `tx.ResolveProgramIDIndex` failure (index past the account keys) -/
  | resolveProgramIDIndex
  deriving DecidableEq, Repr

/-- Outcome of running a Go function that can also panic at runtime
(out-of-range slice indexing); a panic is distinct from a returned error. -/
inductive GoOut (α : Type) where
  | ok (a : α)
  | error (e : DecErr)
  | panicked
  deriving DecidableEq, Repr

/-- `transferInstructionType uint32 = 2`. -/
def transferInstructionType : Nat := 2

/-- `solana.MustPublicKeyFromBase58("11111111111111111111111111111111")`:
32 base58 `'1'` digits decode to 32 zero bytes. -/
def systemProgramID : PubKey := List.replicate 32 0

/-- Little-endian unsigned integer read over a byte list
(`binary.LittleEndian.Uint32/Uint64` on an exact-length slice). -/
def leUint (bs : List Nat) : Nat := bs.foldr (fun b acc => acc * 256 + b) 0

/-- `tx.ResolveProgramIDIndex idx`: the account key at `idx`, or an error
when `idx` is out of range. -/
def resolveProgramIDIndex (tx : SolTransaction) (idx : Nat) : Except DecErr PubKey :=
  match tx.message.accountKeys.get? idx with
  | some k => Except.ok k
  | none => Except.error DecErr.resolveProgramIDIndex

/-- The instruction loop of `decodeSystemTransfer`, with the accumulated
event list made explicit. Each branch mirrors the source in order:
program-id resolution (error on out-of-range index), the system-program
filter, the `Uint32` discriminant read (panic when `Data` has fewer than 4
bytes), the transfer-opcode filter, the `Accounts[0]`/`AccountKeys[...]`/
`Accounts[1]`/`AccountKeys[...]` reads (panic when out of range), and the
`Uint64` amount read at `Data[4:12]` (panic when `Data` has fewer than 12
bytes). `IsSender` compares the sender's base58 text with the queried
address string. -/
def decodeLoop (tx : SolTransaction) (timestamp : Int) (publicKey : List Char) :
    List CompiledInstruction → List Transaction → GoOut (List Transaction)
  | [], acc => GoOut.ok acc
  | instruction :: rest, acc =>
    let keys := tx.message.accountKeys
    if instruction.programIDIndex < keys.length then
      if keys.getD instruction.programIDIndex [] = systemProgramID then
        if instruction.data.length < 4 then GoOut.panicked
        else if leUint (instruction.data.take 4) = transferInstructionType then
          if instruction.accounts.length < 1 then GoOut.panicked
          else if keys.length ≤ instruction.accounts.getD 0 0 then GoOut.panicked
          else if instruction.accounts.length < 2 then GoOut.panicked
          else if keys.length ≤ instruction.accounts.getD 1 0 then GoOut.panicked
          else if instruction.data.length < 12 then GoOut.panicked
          else
            let sender := keys.getD (instruction.accounts.getD 0 0) []
            let receiver := keys.getD (instruction.accounts.getD 1 0) []
            let amount := leUint ((instruction.data.drop 4).take 8)
            decodeLoop tx timestamp publicKey rest
              (acc ++ [{ Amount := amount, From := sender, To := receiver,
                         Timestamp := timestamp,
                         IsSender := base58Encode sender == publicKey }])
        else decodeLoop tx timestamp publicKey rest acc
      else decodeLoop tx timestamp publicKey rest acc
    else GoOut.error DecErr.resolveProgramIDIndex

/-- `decodeSystemTransfer tx timestamp publicKey`. -/
def decodeSystemTransfer (tx : SolTransaction) (timestamp : Int)
    (publicKey : List Char) : GoOut (List Transaction) :=
  decodeLoop tx timestamp publicKey tx.message.instructions []

/-- An instruction is retained by `decodeSystemTransfer`: its program-id
index resolves, the resolved key is the system program, and the
little-endian 4-byte discriminant is the transfer opcode. -/
def instrMatches (tx : SolTransaction) (i : CompiledInstruction) : Bool :=
  match resolveProgramIDIndex tx i.programIDIndex with
  | Except.error _ => false
  | Except.ok progKey =>
    progKey == systemProgramID && leUint (i.data.take 4) == transferInstructionType

/-- Well-formedness of one compiled instruction relative to its transaction:
the program-id index resolves, at least 4 data bytes are present, and a
retained instruction additionally has two account slots referencing
existing account keys and at least 12 data bytes. -/
def instrWF (tx : SolTransaction) (i : CompiledInstruction) : Bool :=
  decide (i.programIDIndex < tx.message.accountKeys.length) &&
  decide (4 ≤ i.data.length) &&
  (!(instrMatches tx i) ||
    (decide (2 ≤ i.accounts.length) &&
     decide (i.accounts.getD 0 0 < tx.message.accountKeys.length) &&
     decide (i.accounts.getD 1 0 < tx.message.accountKeys.length) &&
     decide (12 ≤ i.data.length)))

/-- The transfer event a retained well-formed instruction decodes to:
sender and receiver are the account keys named by the instruction's first
two account slots, the amount is the little-endian `uint64` at data bytes
4..12, and the send flag compares the sender's base58 text with the
queried address. -/
def mkEvent (tx : SolTransaction) (timestamp : Int) (publicKey : List Char)
    (i : CompiledInstruction) : Transaction :=
  let sender := tx.message.accountKeys.getD (i.accounts.getD 0 0) []
  let receiver := tx.message.accountKeys.getD (i.accounts.getD 1 0) []
  { Amount := leUint ((i.data.drop 4).take 8), From := sender, To := receiver,
    Timestamp := timestamp, IsSender := base58Encode sender == publicKey }

/-! ## Transaction-history aggregation (`wallet_trns.go:96-145`)

`fetchTransactions` launches one task per signature under an errgroup; the
remote calls and scheduling are abstracted by supplying the per-signature
task outcomes as an input list. `errgroup.Wait` reports an error iff some
task failed, in which case the Go source returns `nil, err`; on success the
tasks' event lists are appended (in nondeterministic completion order under
a mutex — modelled here in task order, which the settled claims do not
depend on). -/

/-- Failure value of one per-signature task. -/
abbrev FetchErr := List Char

/-- The error `errgroup.Wait` reports: the first failing task's error, if
any task failed. -/
def firstTaskError (results : List (Except FetchErr (List Transaction))) :
    Option FetchErr :=
  match results with
  | [] => none
  | Except.error e :: _ => some e
  | Except.ok _ :: rest => firstTaskError rest

/-- `fetchTransactions`, given the per-signature task outcomes: on any task
failure the call returns `(nil, err)`; otherwise all decoded events are
collected. -/
def fetchTransactions (taskResults : List (Except FetchErr (List Transaction))) :
    List Transaction × Option FetchErr :=
  match firstTaskError taskResults with
  | some e => ([], some e)
  | none =>
    (taskResults.foldl
      (fun acc r => match r with | Except.ok l => acc ++ l | Except.error _ => acc) [],
     none)

/-! ## Concrete inputs used by specific results below -/

/-- A transaction whose single instruction has a program-id index past the
account-keys list, so `ResolveProgramIDIndex` fails. -/
def badIndexTx : SolTransaction :=
  SolTransaction.mk (Message.mk [List.replicate 32 1]
    [CompiledInstruction.mk 1 [] []])

/-- A three-instruction transaction: one genuine system transfer of 100
lamports from key 3 to key 4, one instruction owned by a non-system
program, and one system instruction with a non-transfer discriminant. -/
def mixedTx : SolTransaction :=
  SolTransaction.mk (Message.mk
    [List.replicate 32 3, List.replicate 32 4, List.replicate 32 0]
    [CompiledInstruction.mk 2 [0, 1] [2, 0, 0, 0, 100, 0, 0, 0, 0, 0, 0, 0],
     CompiledInstruction.mk 0 [0, 1] [2, 0, 0, 0, 100, 0, 0, 0, 0, 0, 0, 0],
     CompiledInstruction.mk 2 [] [1, 0, 0, 0]])

/-- A system-program transfer instruction (discriminant 2) whose data is
only 4 bytes — shorter than the 12-byte minimum transfer payload (4-byte
discriminant + 8-byte amount). -/
def shortDataTx : SolTransaction :=
  SolTransaction.mk (Message.mk
    [List.replicate 32 1, List.replicate 32 2, List.replicate 32 0]
    [CompiledInstruction.mk 2 [0, 1] [2, 0, 0, 0]])

/-- Concrete task outcomes: the first task completed with one decoded
transfer, the second failed. -/
def c4TaskResults : List (Except FetchErr (List Transaction)) :=
  [Except.ok [Transaction.mk 5 [1] [2] 0 false], Except.error "boom".toList]

end Sleeng

deriving instance DecidableEq for Except

namespace Sleeng

/-! ## Lemmas: decimal rendering and parsing -/

theorem digitChar_isDigit {m : Nat} (h : m < 10) : isDigit (digitChar m) = true := by
  interval_cases m <;> decide

theorem digitVal_digitChar {m : Nat} (h : m < 10) : digitVal (digitChar m) = m := by
  interval_cases m <;> decide

theorem isDigit_ne {c : Char} (h : isDigit c = true) :
    c ≠ '-' ∧ c ≠ '+' ∧ c ≠ ',' := by
  refine ⟨?_, ?_, ?_⟩ <;> intro hEq <;> subst hEq <;> exact absurd h (by decide)

theorem natToDec_ne_nil (n : Nat) : natToDec n ≠ [] := by
  unfold natToDec natToDecAux
  by_cases h10 : n < 10 <;> simp [h10]

theorem natToDecAux_digits :
    ∀ (f n : Nat) (c : Char), c ∈ natToDecAux f n → isDigit c = true := by
  intro f
  induction f with
  | zero => intro n c hc; simp [natToDecAux] at hc
  | succ f ih =>
    intro n c hc
    by_cases h10 : n < 10
    · simp only [natToDecAux, if_pos h10, List.mem_singleton] at hc
      subst hc; exact digitChar_isDigit h10
    · simp only [natToDecAux, if_neg h10, List.mem_append, List.mem_singleton] at hc
      rcases hc with hc | hc
      · exact ih _ _ hc
      · subst hc; exact digitChar_isDigit (Nat.mod_lt _ (by omega))

theorem parseDigitsAux_append (l2 : List Char) :
    ∀ (l1 : List Char) (acc a : Nat), parseDigitsAux l1 acc = some a →
      parseDigitsAux (l1 ++ l2) acc = parseDigitsAux l2 a := by
  intro l1
  induction l1 with
  | nil =>
    intro acc a h
    simp only [parseDigitsAux, Option.some.injEq] at h
    subst h; rfl
  | cons c cs ih =>
    intro acc a h
    by_cases hd : isDigit c
    · simp only [List.cons_append, parseDigitsAux, if_pos hd] at h ⊢
      exact ih _ _ h
    · simp [parseDigitsAux, hd] at h

theorem parseDigitsAux_natToDecAux :
    ∀ (f n acc : Nat), n < f →
      parseDigitsAux (natToDecAux f n) acc =
        some (acc * 10 ^ (natToDecAux f n).length + n) := by
  intro f
  induction f with
  | zero => intro n acc h; exact absurd h (Nat.not_lt_zero n)
  | succ f ih =>
    intro n acc h
    by_cases h10 : n < 10
    · simp only [natToDecAux, if_pos h10, List.length_singleton]
      simp [parseDigitsAux, digitChar_isDigit h10, digitVal_digitChar h10]
    · have hdiv : n / 10 < f := by
        have h1 : n / 10 < n := Nat.div_lt_self (by omega) (by omega)
        omega
      simp only [natToDecAux, if_neg h10]
      rw [parseDigitsAux_append _ _ _ _ (ih (n / 10) acc hdiv)]
      have hm : n % 10 < 10 := Nat.mod_lt _ (by omega)
      simp only [parseDigitsAux, digitChar_isDigit hm, if_pos, digitVal_digitChar hm,
        List.length_append, List.length_singleton, Option.some.injEq]
      have hmod : 10 * (n / 10) + n % 10 = n := Nat.div_add_mod n 10
      calc (acc * 10 ^ (natToDecAux f (n / 10)).length + n / 10) * 10 + n % 10
          = acc * (10 ^ (natToDecAux f (n / 10)).length * 10) +
              (10 * (n / 10) + n % 10) := by ring
        _ = acc * 10 ^ ((natToDecAux f (n / 10)).length + 1) + n := by
              rw [hmod, pow_succ]

theorem parseDigits_natToDec (n : Nat) : parseDigits (natToDec n) = some n := by
  have hmain := parseDigitsAux_natToDecAux (n + 1) n 0 (Nat.lt_succ_self n)
  rcases hEq : natToDec n with _ | ⟨c, t⟩
  · exact absurd hEq (natToDec_ne_nil n)
  · have hx : natToDecAux (n + 1) n = c :: t := hEq
    rw [hx] at hmain
    show parseDigitsAux (c :: t) 0 = some n
    rw [hmain]
    simp

theorem atoi_natToDec {n : Nat} (h : n ≤ int64Max) :
    atoi (natToDec n) = some (n : Int) := by
  rcases hEq : natToDec n with _ | ⟨c, t⟩
  · exact absurd hEq (natToDec_ne_nil n)
  · have hmem : c ∈ natToDec n := by rw [hEq]; exact List.mem_cons_self c t
    have hc : isDigit c = true := natToDecAux_digits _ _ c hmem
    obtain ⟨h1, h2, _⟩ := isDigit_ne hc
    have hpd : parseDigits (c :: t) = some n := by
      rw [← hEq]; exact parseDigits_natToDec n
    simp [atoi, h1, h2, hpd, h]

theorem intToByte_coe {n : Nat} (h : n < 256) : intToByte (n : Int) = n := by
  unfold intToByte
  omega

theorem parseByteList_natToDec (k : List Nat) (hb : ∀ b ∈ k, b < 256) :
    parseByteList (k.map natToDec) = Except.ok k := by
  induction k with
  | nil => rfl
  | cons n ns ih =>
    have hn : n < 256 := hb n (List.mem_cons_self n ns)
    have hle : n ≤ int64Max := by unfold int64Max; omega
    have hrest := ih (fun b hbm => hb b (List.mem_cons_of_mem _ hbm))
    simp only [List.map_cons, parseByteList, atoi_natToDec hle, hrest,
      intToByte_coe hn]

theorem natToDec_no_comma (n : Nat) : ',' ∉ natToDec n := by
  intro hc
  exact absurd (natToDecAux_digits _ _ ',' hc) (by decide)

/-! ## Lemmas: trim helpers -/

theorem goTrimPre_cons (s : List Char) : goTrimPre ('[' :: s) ['['] = s := by
  simp [goTrimPre, List.isPrefixOf]

theorem goTrimSuf_concat (s : List Char) : goTrimSuf (s ++ [']']) [']'] = s := by
  unfold goTrimSuf
  rw [if_pos]
  · simp only [List.length_append, List.length_singleton, List.length_cons]
    exact List.take_left' (by omega)
  · simp [List.isSuffixOf, List.isPrefixOf]

/-- The key-codec round-trip, shared by several results below. -/
theorem decode_encode_key (k : List Nat) (hne : k ≠ []) (hb : ∀ b ∈ k, b < 256) :
    getPrivateKeyFromSolCLICompStr (getSolCLIComptKey k) = Except.ok k := by
  have hx : ∀ l ∈ k.map natToDec, ',' ∉ l := by
    intro l hl
    obtain ⟨n, _, rfl⟩ := List.mem_map.mp hl
    exact natToDec_no_comma n
  have hls : k.map natToDec ≠ [] := by
    intro hmap
    exact hne (List.map_eq_nil_iff.mp hmap)
  simp only [getPrivateKeyFromSolCLICompStr, getSolCLIComptKey]
  rw [goTrimPre_cons, goTrimSuf_concat, List.splitOn_intercalate (k.map natToDec) ',' hx hls]
  exact parseByteList_natToDec k hb

/-- C1: decoding the Solana-CLI-compatible textual array produced by encoding
any non-empty byte sequence (in particular any 64-byte ed25519 private key)
yields exactly the original bytes, with no error. -/
theorem C1_key_roundtrip (k : List Nat) (hne : k ≠ []) (hb : ∀ b ∈ k, b < 256) :
    getPrivateKeyFromSolCLICompStr (getSolCLIComptKey k) = Except.ok k :=
  decode_encode_key k hne hb

/-- Witness for C1 at a concrete 64-byte key. -/
theorem C1_key_roundtrip_witness :
    (List.replicate 64 7 ≠ ([] : List Nat)) ∧
      getPrivateKeyFromSolCLICompStr (getSolCLIComptKey (List.replicate 64 7)) =
        Except.ok (List.replicate 64 7) :=
  ⟨by decide, C1_key_roundtrip _ (by decide) (by decide)⟩

/-! ## Lemmas: Go map model -/

theorem goMapGet_put_self (m : List (List Char × Wallet)) (k : List Char) (v : Wallet) :
    goMapGet (goMapPut m k v) k = some v := by
  induction m with
  | nil => simp [goMapGet, goMapPut]
  | cons p rest ih =>
    obtain ⟨k2, v2⟩ := p
    by_cases hk : k2 = k
    · simp [goMapGet, goMapPut, hk]
    · simp [goMapGet, goMapPut, hk, ih]

/-- C2: writing a wallet whose alias already exists in the store returns the
Conflict error `alias already exists` and leaves the backing file state
unchanged (no write is performed). -/
theorem C2_duplicate_alias_conflict (d : WalletData) (alias2 : List Char)
    (key : List Nat) (walletAddress : List Char) (w : Wallet)
    (hdup : goMapGet d.wallets alias2 = some w) :
    writeKeyToFile (FS.present d) alias2 key walletAddress =
      (Except.error (KeyErr.aliasExists alias2), FS.present d) := by
  simp only [writeKeyToFile, hdup]

/-- Witness for C2 on a concrete one-wallet store. -/
theorem C2_duplicate_alias_conflict_witness :
    (goMapGet [("a".toList, Wallet.mk "[1]".toList 0 "PKA".toList)] "a".toList =
        some (Wallet.mk "[1]".toList 0 "PKA".toList)) ∧
      writeKeyToFile
          (FS.present (WalletData.mk "a".toList
            [("a".toList, Wallet.mk "[1]".toList 0 "PKA".toList)]))
          "a".toList [5] "X".toList =
        (Except.error (KeyErr.aliasExists "a".toList),
         FS.present (WalletData.mk "a".toList
            [("a".toList, Wallet.mk "[1]".toList 0 "PKA".toList)])) :=
  ⟨by decide,
   C2_duplicate_alias_conflict
     (WalletData.mk "a".toList [("a".toList, Wallet.mk "[1]".toList 0 "PKA".toList)])
     "a".toList [5] "X".toList (Wallet.mk "[1]".toList 0 "PKA".toList) (by decide)⟩

/-- C6: writing a fresh alias succeeds, makes it the active alias, and an
immediately following `getCurrentPublicKey` returns the new wallet's
address. -/
theorem C6_new_wallet_becomes_active (fs : FS) (alias2 : List Char) (key : List Nat)
    (walletAddress : List Char) (hfresh : goMapGet (fsWallets fs) alias2 = none) :
    ∃ d2 : WalletData,
      writeKeyToFile fs alias2 key walletAddress = (Except.ok (), FS.present d2) ∧
        d2.activeAlias = alias2 ∧
        getCurrentPublicKey (FS.present d2) = Except.ok walletAddress := by
  cases fs with
  | absent =>
    refine ⟨WalletData.mk alias2
        (goMapPut [] alias2 (Wallet.mk (getSolCLIComptKey key) 0 walletAddress)),
      rfl, rfl, ?_⟩
    simp [getCurrentPublicKey, readWalletData, goMapGet_put_self]
  | present d =>
    have hw : goMapGet d.wallets alias2 = none := hfresh
    refine ⟨WalletData.mk alias2
        (goMapPut d.wallets alias2 (Wallet.mk (getSolCLIComptKey key) 0 walletAddress)),
      ?_, rfl, ?_⟩
    · simp only [writeKeyToFile, hw]
    · simp [getCurrentPublicKey, readWalletData, goMapGet_put_self]

/-- Witness for C6: creating "bob" in an empty store makes "bob" active. -/
theorem C6_new_wallet_becomes_active_witness :
    (goMapGet (fsWallets FS.absent) "bob".toList = none) ∧
      ∃ d2 : WalletData,
        writeKeyToFile FS.absent "bob".toList [1, 2] "ADDR".toList =
            (Except.ok (), FS.present d2) ∧
          d2.activeAlias = "bob".toList ∧
          getCurrentPublicKey (FS.present d2) = Except.ok "ADDR".toList :=
  ⟨by decide,
   C6_new_wallet_becomes_active FS.absent "bob".toList [1, 2] "ADDR".toList (by decide)⟩

/-- C7 (amended): when the store's `activeAlias` has no wallet record bound
to it — in particular an empty `activeAlias` with no empty-alias record —
both `getCurrentPrivateKey` and `getCurrentPublicKey` fail with the
ActiveWalletNotFound error. -/
theorem C7_active_missing_error (d : WalletData)
    (h : goMapGet d.wallets d.activeAlias = none) :
    getCurrentPrivateKey (FS.present d) = Except.error KeyErr.activeWalletNotFound ∧
      getCurrentPublicKey (FS.present d) = Except.error KeyErr.activeWalletNotFound := by
  constructor
  · simp only [getCurrentPrivateKey, readWalletData, h]
  · simp only [getCurrentPublicKey, readWalletData, h]

/-- Witness for C7 (amended): dangling activeAlias "x" over an empty map. -/
theorem C7_active_missing_error_witness :
    (goMapGet (WalletData.mk "x".toList []).wallets
        (WalletData.mk "x".toList []).activeAlias = none) ∧
      getCurrentPrivateKey (FS.present (WalletData.mk "x".toList [])) =
          Except.error KeyErr.activeWalletNotFound ∧
        getCurrentPublicKey (FS.present (WalletData.mk "x".toList [])) =
          Except.error KeyErr.activeWalletNotFound :=
  ⟨by decide, C7_active_missing_error (WalletData.mk "x".toList []) (by decide)⟩

/-- Counterexample to C7 as stated: a store whose `activeAlias` is the empty
string but which holds a wallet record under the empty alias. Both reads
succeed (the public key, and the base58 `"2"` of the decoded key `[1]`)
instead of failing with ActiveWalletNotFound. -/
theorem C7_counterexample :
    (WalletData.mk [] [([], Wallet.mk "[1]".toList 0 "PK".toList)]).activeAlias = [] ∧
      getCurrentPublicKey
          (FS.present (WalletData.mk [] [([], Wallet.mk "[1]".toList 0 "PK".toList)])) =
        Except.ok "PK".toList ∧
      getCurrentPrivateKey
          (FS.present (WalletData.mk [] [([], Wallet.mk "[1]".toList 0 "PK".toList)])) =
        Except.ok "2".toList :=
  ⟨rfl, by decide, by decide⟩

/-- C8: for a store whose active wallet "a" holds the CLI-compatible textual
array of a 64-byte key, `getCurrentPrivateKey` returns the decoded key (in
its base58 textual encoding, as the source returns `base58.Encode(ret)`). -/
theorem C8_current_private_key_decodes (k : List Nat) (h64 : k.length = 64)
    (hb : ∀ b ∈ k, b < 256) :
    getCurrentPrivateKey
        (FS.present (WalletData.mk "a".toList
          [("a".toList, Wallet.mk (getSolCLIComptKey k) 0 "PUBKEYA".toList)])) =
      Except.ok (base58Encode k) := by
  have hne : k ≠ [] := by
    intro h
    rw [h] at h64
    simp at h64
  simp [getCurrentPrivateKey, readWalletData, goMapGet, decode_encode_key k hne hb]

/-- Witness for C8 at a concrete 64-byte key. -/
theorem C8_current_private_key_decodes_witness :
    ((List.replicate 64 9).length = 64) ∧
      getCurrentPrivateKey
          (FS.present (WalletData.mk "a".toList
            [("a".toList,
              Wallet.mk (getSolCLIComptKey (List.replicate 64 9)) 0 "PUBKEYA".toList)])) =
        Except.ok (base58Encode (List.replicate 64 9)) :=
  ⟨by decide, C8_current_private_key_decodes (List.replicate 64 9) (by decide) (by decide)⟩

/-! ## Lemmas: base58 output alphabet -/

theorem natToB58Aux_mem :
    ∀ (f n : Nat) (c : Char), c ∈ natToB58Aux f n → c ∈ b58Alphabet := by
  intro f
  induction f with
  | zero => intro n c hc; simp [natToB58Aux] at hc
  | succ f ih =>
    intro n c hc
    by_cases h0 : n = 0
    · simp [natToB58Aux, h0] at hc
    · simp only [natToB58Aux, if_neg h0, List.mem_append, List.mem_singleton] at hc
      rcases hc with hc | hc
      · exact ih _ _ hc
      · subst hc
        have h58 : n % 58 < 58 := Nat.mod_lt _ (by omega)
        have hall : ∀ i < 58, b58Alphabet.getD i '1' ∈ b58Alphabet := by decide
        exact hall _ h58

theorem base58_no_lbracket (bs : List Nat) : '[' ∉ base58Encode bs := by
  intro h
  simp only [base58Encode, List.mem_append, List.mem_replicate] at h
  rcases h with ⟨_, h⟩ | h
  · exact absurd h (by decide)
  · exact absurd (natToB58Aux_mem _ _ _ h) (by decide)

/-- C9: `getPrivateKeyByAlias` returns the stored privateKey text verbatim
(the CLI-compatible array text), while `getCurrentPrivateKey` returns the
base58 encoding of the decoded bytes, and for any store whose active wallet
holds CLI array text the two returned strings differ. -/
theorem C9_by_alias_verbatim_differs (d : WalletData) (w : Wallet) (k : List Nat)
    (hk : k ≠ []) (hb : ∀ b ∈ k, b < 256)
    (hw : goMapGet d.wallets d.activeAlias = some w)
    (hpk : w.privateKey = getSolCLIComptKey k) :
    getPrivateKeyByAlias (FS.present d) d.activeAlias =
        Except.ok (getSolCLIComptKey k) ∧
      getCurrentPrivateKey (FS.present d) = Except.ok (base58Encode k) ∧
      getSolCLIComptKey k ≠ base58Encode k := by
  refine ⟨?_, ?_, ?_⟩
  · simp only [getPrivateKeyByAlias, readWalletData, hw, hpk]
  · simp only [getCurrentPrivateKey, readWalletData, hw, hpk,
      decode_encode_key k hk hb]
  · intro hEq
    have hmem : '[' ∈ getSolCLIComptKey k := List.mem_cons_self _ _
    rw [hEq] at hmem
    exact base58_no_lbracket k hmem

/-- Witness for C9 on a concrete store with key bytes `[1, 2]`. -/
theorem C9_by_alias_verbatim_differs_witness :
    (goMapGet [("a".toList, Wallet.mk (getSolCLIComptKey [1, 2]) 0 "P".toList)]
        "a".toList = some (Wallet.mk (getSolCLIComptKey [1, 2]) 0 "P".toList)) ∧
      getPrivateKeyByAlias
          (FS.present (WalletData.mk "a".toList
            [("a".toList, Wallet.mk (getSolCLIComptKey [1, 2]) 0 "P".toList)]))
          "a".toList =
        Except.ok (getSolCLIComptKey [1, 2]) ∧
      getCurrentPrivateKey
          (FS.present (WalletData.mk "a".toList
            [("a".toList, Wallet.mk (getSolCLIComptKey [1, 2]) 0 "P".toList)])) =
        Except.ok (base58Encode [1, 2]) ∧
      getSolCLIComptKey [1, 2] ≠ base58Encode [1, 2] := by
  refine ⟨by decide, ?_⟩
  have h := C9_by_alias_verbatim_differs
    (WalletData.mk "a".toList
      [("a".toList, Wallet.mk (getSolCLIComptKey [1, 2]) 0 "P".toList)])
    (Wallet.mk (getSolCLIComptKey [1, 2]) 0 "P".toList)
    [1, 2] (by decide) (by decide) (by decide) rfl
  exact h

/-! ## Lemmas: transaction decoding -/

theorem instrMatches_eq (tx : SolTransaction) (i : CompiledInstruction)
    (hidx : i.programIDIndex < tx.message.accountKeys.length) :
    instrMatches tx i =
      ((tx.message.accountKeys.getD i.programIDIndex [] == systemProgramID) &&
       (leUint (i.data.take 4) == transferInstructionType)) := by
  have hg : tx.message.accountKeys.get? i.programIDIndex =
      some (tx.message.accountKeys.getD i.programIDIndex []) := by
    simp [List.getElem?_eq_getElem hidx]
  simp only [instrMatches, resolveProgramIDIndex, hg]

/-- The loop of `decodeSystemTransfer` on well-formed instructions: it
returns the accumulated events followed by one event per retained
instruction, in order, with no error. -/
theorem decodeLoop_ok (tx : SolTransaction) (ts : Int) (pk : List Char) :
    ∀ (l : List CompiledInstruction) (acc : List Transaction),
      (∀ i ∈ l, instrWF tx i = true) →
      decodeLoop tx ts pk l acc =
        GoOut.ok (acc ++ (l.filter (instrMatches tx)).map (mkEvent tx ts pk)) := by
  intro l
  induction l with
  | nil => intro acc _; simp [decodeLoop]
  | cons i rest ih =>
    intro acc hwf
    have hii := hwf i (List.mem_cons_self i rest)
    have hrest : ∀ j ∈ rest, instrWF tx j = true :=
      fun j hj => hwf j (List.mem_cons_of_mem _ hj)
    simp only [instrWF, Bool.and_eq_true, decide_eq_true_eq] at hii
    obtain ⟨⟨hidx, hd4⟩, hor⟩ := hii
    have hM := instrMatches_eq tx i hidx
    by_cases hsys : tx.message.accountKeys.getD i.programIDIndex [] = systemProgramID
    · by_cases htype : leUint (i.data.take 4) = transferInstructionType
      · have hMt : instrMatches tx i = true := by
          rw [hM]
          simp only [Bool.and_eq_true, beq_iff_eq]
          exact ⟨hsys, htype⟩
        have hacc : 2 ≤ i.accounts.length ∧
            i.accounts.getD 0 0 < tx.message.accountKeys.length ∧
            i.accounts.getD 1 0 < tx.message.accountKeys.length ∧
            12 ≤ i.data.length := by
          simp only [Bool.or_eq_true, Bool.not_eq_true', Bool.and_eq_true,
            decide_eq_true_eq] at hor
          rcases hor with hf | hc
          · rw [hMt] at hf; exact absurd hf (by decide)
          · exact ⟨hc.1.1.1, hc.1.1.2, hc.1.2, hc.2⟩
        obtain ⟨ha2, hs, hr, hd12⟩ := hacc
        simp only [decodeLoop]
        rw [if_pos hidx, if_pos hsys, if_neg (by omega : ¬i.data.length < 4),
          if_pos htype, if_neg (by omega : ¬i.accounts.length < 1),
          if_neg (by omega : ¬tx.message.accountKeys.length ≤ i.accounts.getD 0 0),
          if_neg (by omega : ¬i.accounts.length < 2),
          if_neg (by omega : ¬tx.message.accountKeys.length ≤ i.accounts.getD 1 0),
          if_neg (by omega : ¬i.data.length < 12),
          ih _ hrest, List.filter_cons, if_pos hMt, List.map_cons]
        simp [mkEvent]
      · have hMf : instrMatches tx i = false := by
          rw [hM, beq_eq_false_iff_ne.mpr htype, Bool.and_false]
        simp only [decodeLoop]
        rw [if_pos hidx, if_pos hsys, if_neg (by omega : ¬i.data.length < 4),
          if_neg htype, ih _ hrest, List.filter_cons, if_neg (by simp [hMf])]
    · have hMf : instrMatches tx i = false := by
        rw [hM, beq_eq_false_iff_ne.mpr hsys, Bool.false_and]
      simp only [decodeLoop]
      rw [if_pos hidx, if_neg hsys, ih _ hrest, List.filter_cons,
        if_neg (by simp [hMf])]

/-- C5 (amended): over transactions whose instructions are well formed
(resolvable program-id index, at least 4 data bytes, and — for retained
instructions — two account slots naming existing account keys and at least
12 data bytes), `decodeSystemTransfer` retains exactly the instructions
whose resolved program is the system program with transfer discriminant 2,
producing one `mkEvent` per retained instruction (sender/receiver from the
instruction's first two account slots, amount from data bytes 4..12, send
flag comparing the sender to the queried address), and a transaction with
zero matching instructions yields zero events and no error. -/
theorem C5_decode_retention (tx : SolTransaction) (ts : Int) (pk : List Char)
    (hwf : ∀ i ∈ tx.message.instructions, instrWF tx i = true) :
    decodeSystemTransfer tx ts pk =
        GoOut.ok ((tx.message.instructions.filter (instrMatches tx)).map
          (mkEvent tx ts pk)) ∧
      (tx.message.instructions.filter (instrMatches tx) = [] →
        decodeSystemTransfer tx ts pk = GoOut.ok []) := by
  have h := decodeLoop_ok tx ts pk tx.message.instructions [] hwf
  simp only [List.nil_append] at h
  refine ⟨h, fun hz => ?_⟩
  show decodeLoop tx ts pk tx.message.instructions [] = GoOut.ok []
  rw [h, hz, List.map_nil]

/-- Counterexample to C5 as stated: `badIndexTx` has zero instructions whose
resolved program is the system program (its only instruction's program-id
index does not resolve at all), yet `decodeSystemTransfer` returns a
resolve error for the whole call rather than zero events and no error. -/
theorem C5_counterexample :
    badIndexTx.message.instructions.filter (instrMatches badIndexTx) = [] ∧
      decodeSystemTransfer badIndexTx 0 [] =
        GoOut.error DecErr.resolveProgramIDIndex := by
  refine ⟨by decide, by decide⟩

/-- Witness for C5 (amended) on `mixedTx`. -/
theorem C5_decode_retention_witness :
    (∀ i ∈ mixedTx.message.instructions, instrWF mixedTx i = true) ∧
      (decodeSystemTransfer mixedTx 0 [] =
          GoOut.ok ((mixedTx.message.instructions.filter (instrMatches mixedTx)).map
            (mkEvent mixedTx 0 [])) ∧
        (mixedTx.message.instructions.filter (instrMatches mixedTx) = [] →
          decodeSystemTransfer mixedTx 0 [] = GoOut.ok [])) :=
  ⟨by decide, C5_decode_retention mixedTx 0 [] (by decide)⟩

/-- C3, evaluated at the failing input: on a system-program transfer
instruction whose data is shorter than the minimum transfer payload,
`decodeSystemTransfer` hits a Go runtime slice-bounds panic at
`Data[4:12]` — it does not return a decode error as the claim states. -/
theorem C3_short_data_panics :
    decodeSystemTransfer shortDataTx 0 [] = GoOut.panicked := by decide

/-! ## C4: fail-fast aggregation -/

theorem firstTaskError_isSome (rs : List (Except FetchErr (List Transaction)))
    (e : FetchErr) (h : Except.error e ∈ rs) :
    ∃ e2, firstTaskError rs = some e2 := by
  induction rs with
  | nil => simp at h
  | cons r rest ih =>
    cases r with
    | error e3 => exact ⟨e3, rfl⟩
    | ok l =>
      rcases List.mem_cons.mp h with hEq | hmem
      · exact absurd hEq (by simp)
      · obtain ⟨e2, h2⟩ := ih hmem
        exact ⟨e2, h2⟩

/-- C4: whenever at least one per-signature task fails, `fetchTransactions`
returns an error, and the returned transaction collection is empty — no
event from any completed task is visible in the result. -/
theorem C4_fail_fast_empty_result
    (taskResults : List (Except FetchErr (List Transaction))) (e : FetchErr)
    (h : Except.error e ∈ taskResults) :
    ∃ e2, fetchTransactions taskResults = ([], some e2) := by
  obtain ⟨e2, h2⟩ := firstTaskError_isSome taskResults e h
  exact ⟨e2, by simp [fetchTransactions, h2]⟩

/-- Witness for C4 on `c4TaskResults`. -/
theorem C4_fail_fast_empty_result_witness :
    (Except.error "boom".toList ∈ c4TaskResults) ∧
      ∃ e2, fetchTransactions c4TaskResults = ([], some e2) :=
  ⟨by decide, C4_fail_fast_empty_result c4TaskResults "boom".toList (by decide)⟩

/-- C10: `getPrivateKeyFromSolCLICompStr` accepts entries outside `0..255`,
reducing them modulo 256 without error, so decoding is not injective: the
distinct texts `[256]` and `[0]` decode to the same key bytes. -/
theorem C10_decode_mod256_not_injective :
    getPrivateKeyFromSolCLICompStr "[256]".toList = Except.ok [0] ∧
      getPrivateKeyFromSolCLICompStr "[0]".toList = Except.ok [0] ∧
      "[256]".toList ≠ "[0]".toList := by
  refine ⟨by decide, by decide, by decide⟩

end Sleeng
